import Mathlib

/-!
Verification of the document-analysis system's ingestion-and-retrieval core:
a shallow embedding of the chunker, topic tagger, vector index, ingestion
pipeline, query cache and query orchestrator, with theorems settling the
specification's claims about them.
-/

namespace DocAnalysis

/-! # Definitions

## Chunker (`DocumentProcessor._chunk_text`)

Python source:
```
if not text:
    return []
return [text[i:i + chunk_size] for i in range(0, len(text), chunk_size)]
```
A Python `str` is modelled as a `List Char`.  Python's `range(0, n, step)`
enumerates `⌈n/step⌉` offsets `0, step, 2·step, …`, rendered as
`List.range' 0 ⌈n/step⌉ step`, and the slice `text[i:i+chunk_size]` is
`(text.drop i).take chunk_size`.  (For `chunk_size = 0` Python's `range`
raises `ValueError`; the model returns `[]`, outside the contract `size > 0`.)
-/

def chunkList (text : List Char) (chunkSize : Nat) : List (List Char) :=
  if text = [] then []
  else (List.range' 0 ((text.length + chunkSize - 1) / chunkSize) chunkSize).map
    (fun i => (text.drop i).take chunkSize)

/-- The chunker `_chunk_text` on actual strings, with the source's default
`chunk_size = 4000`. -/
def chunkText (text : String) (chunkSize : Nat := 4000) : List String :=
  (chunkList text.data chunkSize).map (fun l => String.mk l)

/-! ## Vector Index (`VectorStore`)

The Chroma collection is modelled as an association list from ids to records,
in insertion order.  A record is the metadata dict written by the pipeline,
`{"text": chunk, "topic": topic}`.  Chroma's `add_texts` with explicit `ids`
upserts: an existing id is overwritten in place, a new id is appended.
-/

structure IndexRecord where
  text : String
  topic : String
deriving DecidableEq

abbrev VSState := List (String × IndexRecord)

def upsertRecord (st : VSState) (id : String) (r : IndexRecord) : VSState :=
  if st.any (fun p => p.1 = id) then
    st.map (fun p => if p.1 = id then (id, r) else p)
  else st ++ [(id, r)]

/-- The id string `f"doc_{i+j}"` built in `VectorStore.add_texts`. -/
def docId (n : Nat) : String := "doc_" ++ toString n

def addBatch (st : VSState) (ids : List String) (metas : List IndexRecord) : VSState :=
  match ids, metas with
  | id :: ids', m :: ms => addBatch (upsertRecord st id m) ids' ms
  | _, _ => st

/-- The method `VectorStore.add_texts(texts, metadatas, batch_size)` acting on
the modelled collection state: the loop `for i in range(0, len(texts),
batch_size)` writes the batch starting at offset `i` with ids `doc_{i+j}` for
`j` below the batch length.  (`batch_size = 0` would raise `ValueError` in
Python's `range`; the model performs no iteration, outside the contract.) -/
def addTexts (st : VSState) (texts : List String) (metas : List IndexRecord)
    (batchSize : Nat := 8) : VSState :=
  (List.range' 0 ((texts.length + batchSize - 1) / batchSize) batchSize).foldl
    (fun s i =>
      let batchTexts := (texts.drop i).take batchSize
      let batchMetas := (metas.drop i).take batchSize
      let batchIds := (List.range batchTexts.length).map (fun j => docId (i + j))
      addBatch s batchIds batchMetas)
    st

/-! ### `VectorStore.query`

The Chroma call `similarity_search_with_score(query, k, filter or {})` is
external; it is modelled as a `backend` function returning either the scored
documents or an error.  The method's own logic projects each hit to
`{"text": doc.metadata.get("text", ""), "score": score}` and returns `[]` on
any exception.  A metadata filter dict such as `{"topic": {"$in": topics}}`
is modelled as an association list from field name to allowed values.
-/

abbrev ChromaFilter := List (String × List String)

structure QueryHit where
  text : String
  score : Rat
deriving DecidableEq

def vectorStoreQuery
    (backend : String → Nat → ChromaFilter → Except Unit (List (IndexRecord × Rat)))
    (queryText : String) (topK : Nat := 5) (filter : Option ChromaFilter := none) :
    List QueryHit :=
  match backend queryText topK (filter.getD []) with
  | Except.ok results => results.map (fun r => ⟨r.1.text, r.2⟩)
  | Except.error _ => []

/-! ## Query Cache (`Cache`)

The Redis store is modelled as an association list of entries with absolute
expiry instants; `setex key ttl value` stores expiry `now + ttl` and Redis
reports an entry only while `now < expiresAt` (a `get` after expiry behaves
as an absent key).  `Cache.get` tests the returned value with Python
truthiness (`if value:`), so both an absent key and a stored empty string
take the miss branch.
-/

structure RedisEntry where
  key : String
  value : String
  expiresAt : Nat
deriving DecidableEq

structure CacheState where
  redis : List RedisEntry
  hits : Nat
  misses : Nat
deriving DecidableEq

/-- TTL from `Cache.__init__`: `int(timedelta(hours=24).total_seconds())`. -/
def cacheTtl : Nat := 86400

def redisGet (entries : List RedisEntry) (key : String) (now : Nat) : Option String :=
  match entries.find? (fun e => e.key == key) with
  | some e => if now < e.expiresAt then some e.value else none
  | none => none

/-- The method `Cache.get`: hit counter incremented when the value is truthy,
miss counter otherwise; returns the value only on the truthy branch. -/
def cacheGet (c : CacheState) (key : String) (now : Nat) : Option String × CacheState :=
  match redisGet c.redis key now with
  | some v =>
    if v = "" then (none, { c with misses := c.misses + 1 })
    else (some v, { c with hits := c.hits + 1 })
  | none => (none, { c with misses := c.misses + 1 })

def redisSetex (entries : List RedisEntry) (key value : String) (expiresAt : Nat) :
    List RedisEntry :=
  if entries.any (fun e => e.key == key) then
    entries.map (fun e => if e.key == key then ⟨key, value, expiresAt⟩ else e)
  else entries ++ [⟨key, value, expiresAt⟩]

/-- The method `Cache.set`: `self.redis.setex(key, self.ttl, value)`. -/
def cacheSet (c : CacheState) (key value : String) (now : Nat) : CacheState :=
  { c with redis := redisSetex c.redis key value (now + cacheTtl) }

/-- The method `Cache.hit_ratio`: `hits / total if total > 0 else 0.0`, the
float modelled as a rational. -/
def hitRatio (c : CacheState) : Rat :=
  let total := c.hits + c.misses
  if total > 0 then (c.hits : Rat) / (total : Rat) else 0

/-- A fresh `Cache` over a given Redis backing state: `hits = misses = 0`. -/
def initialCache (entries : List RedisEntry) : CacheState := ⟨entries, 0, 0⟩

/-- A sequence of `Cache.get` lookups, each given as `(key, now)`. -/
def runGets (c : CacheState) (lookups : List (String × Nat)) : CacheState :=
  lookups.foldl (fun s q => (cacheGet s q.1 q.2).2) c

/-! ## Query Orchestrator (`monitoring.query`)

The endpoint body builds the cache key, consults the cache, and on the
untruthy branch runs retrieval + generation (`RetrievalQA` over the vector
store and the LLM — external, modelled as the outcome `gen` of that chain:
either an answer string or a raised exception), caches the produced answer
and returns it; any exception is caught and surfaced as HTTP 500.
-/

/-- The cache key `f"query:{question}:{','.join(topics)}"` computed by the
`/api/query` endpoint. -/
def cacheKey (question : String) (topics : List String) : String :=
  "query:" ++ question ++ ":" ++ String.intercalate "," topics

def insertSorted (s : String) : List String → List String
  | [] => [s]
  | t :: ts => if s ≤ t then s :: t :: ts else t :: insertSorted s ts

def sortStrings (l : List String) : List String := l.foldr insertSorted []

/-- Modelled from the spec: the key-canonicalization contract
`key = question_text + ":" + sorted_join(topics, ",")` with the topics sorted
lexicographically before joining (the code under test is `cacheKey`; this
definition follows the specification's words for comparison). -/
def specCacheKey (question : String) (topics : List String) : String :=
  question ++ ":" ++ String.intercalate "," (sortStrings topics)

inductive QueryOutcome where
  | answer (a : String)
  | error500
deriving DecidableEq

/-- The `/api/query` endpoint body.  `gen` is the outcome of the external
retrieval-plus-generation chain (`qa_chain.run`) for this request: `Except.ok`
an answer string, or `Except.error` for a raised exception.  The cached value
is tested with Python truthiness (`if cached_response:`), rendered as
`res.1.getD "" ≠ ""`. -/
def queryEndpoint (gen : Except Unit String) (c : CacheState) (question : String)
    (topics : List String) (now : Nat) : QueryOutcome × CacheState :=
  let key := cacheKey question topics
  let res := cacheGet c key now
  if (res.1.getD "") ≠ "" then
    (QueryOutcome.answer (res.1.getD ""), res.2)
  else
    match gen with
    | Except.ok a => (QueryOutcome.answer a, cacheSet res.2 key a now)
    | Except.error _ => (QueryOutcome.error500, res.2)

/-! ## Ingestion Pipeline (`DocumentProcessor`)

Filesystem paths are modelled as lists of components; `os.path.basename` is
the last component.  The `os.walk` traversal is given as data: the list of
`(root, files)` pairs it yields.  The external pieces — text extraction
(whose own failures are caught inside the extractors and yield `""`) and
whether the vector-store write for a file's `add_texts` call raises — are a
`FileSystem` oracle.  A failing write is modelled as raising before any batch
is committed (one possible behaviour; no claim proved here depends on the
partially committed state).  The `log` field records, per processed file, the
`(file, topic, chunk_count)` triple reported by the source's log lines.
-/

def basename (p : List String) : String := p.getLastD ""

structure WalkEntry where
  root : List String
  files : List String

structure FileSystem where
  extract : List String → String
  writeFails : List String → Bool

/-- Python `str.endswith(suffix)`, on the character-list model. -/
def strEndsWith (s suffix : String) : Bool := suffix.data.isSuffixOf s.data

/-- The extension test `file.endswith(('.pdf', '.docx'))` (and the `if/elif`
dispatch of `_process_single_file`). -/
def isSupported (fileName : String) : Bool :=
  strEndsWith fileName ".pdf" || strEndsWith fileName ".docx"

/-- The method `DocumentProcessor._process_single_file`: unsupported
extension or empty extracted text give 0 chunks; otherwise the text is
chunked, each chunk paired with metadata `{"text": chunk, "topic": topic}`,
and written via `add_texts(..., batch_size=16)`; an exception from the write
is caught and the method returns 0. -/
def processSingleFile (fsys : FileSystem) (st : VSState) (filePath : List String)
    (topic : String) : Nat × VSState :=
  if isSupported (basename filePath) then
    let text := fsys.extract filePath
    if text = "" then (0, st)
    else
      let chunks := chunkText text 4000
      let metadatas := chunks.map (fun c => IndexRecord.mk c topic)
      if fsys.writeFails filePath then (0, st)
      else (chunks.length, addTexts st chunks metadatas 16)
  else (0, st)

/-- The chunk count `_process_single_file` reports for a file, which depends
only on the oracle, not on the store state. -/
def singleFileCount (fsys : FileSystem) (filePath : List String) : Nat :=
  if isSupported (basename filePath) then
    let text := fsys.extract filePath
    if text = "" then 0
    else if fsys.writeFails filePath then 0
    else (chunkText text 4000).length
  else 0

structure LogEntry where
  file : List String
  topic : String
  chunks : Nat
deriving DecidableEq

structure ProcState where
  topics : List String
  store : VSState
  log : List LogEntry

/-- Python `set.add` on the modelled topic catalog. -/
def insertTopic (ts : List String) (t : String) : List String :=
  if t ∈ ts then ts else ts ++ [t]

/-- One iteration of the `os.walk` loop in `process_directory`: derive the
topic from the directory's base name, record it in the catalog unless it
equals the root's base name, then process every file whose extension is
supported. -/
def processEntry (fsys : FileSystem) (rootBase : String) (st : ProcState)
    (e : WalkEntry) : ProcState :=
  let topic := basename e.root
  let st1 := if topic ≠ rootBase then { st with topics := insertTopic st.topics topic }
    else st
  e.files.foldl (fun s f =>
    if isSupported f then
      let r := processSingleFile fsys s.store (e.root ++ [f]) topic
      { s with store := r.2, log := s.log ++ [⟨e.root ++ [f], topic, r.1⟩] }
    else s) st1

/-- The method `DocumentProcessor.process_directory` on a given walk, starting
from a fresh processor (empty catalog, empty store). -/
def processDirectory (fsys : FileSystem) (directoryPath : List String)
    (entries : List WalkEntry) : ProcState :=
  entries.foldl (processEntry fsys (basename directoryPath)) ⟨[], [], []⟩

/-- The per-entry log segment: one record per supported file, tagged with the
entry directory's base name. -/
def entryLog (fsys : FileSystem) (e : WalkEntry) : List LogEntry :=
  (e.files.filter isSupported).map
    (fun f => ⟨e.root ++ [f], basename e.root, singleFileCount fsys (e.root ++ [f])⟩)

/-! # Theorems -/

/-! ## Chunker lemmas and claim C4 -/

theorem chunkList_nil (n : Nat) : chunkList [] n = [] := rfl

/-- Recursive characterization of the chunker: for `0 < chunkSize` and
non-empty input, the first chunk is `text.take chunkSize` and the rest chunk
the remainder. -/
theorem chunkList_eq_cons {text : List Char} {chunkSize : Nat}
    (hne : text ≠ []) (hs : 0 < chunkSize) :
    chunkList text chunkSize =
      text.take chunkSize :: chunkList (text.drop chunkSize) chunkSize := by
  have hlen : 0 < text.length := List.length_pos.mpr hne
  have hm : (text.length + chunkSize - 1) / chunkSize
      = (text.length - 1) / chunkSize + 1 := by
    rw [show text.length + chunkSize - 1 = (text.length - 1) + chunkSize by omega,
      Nat.add_div_right _ hs]
  rw [chunkList, if_neg hne, hm, List.range'_succ, List.map_cons, List.drop_zero]
  congr 1
  simp only [Nat.zero_add]
  have hshift : List.range' chunkSize ((text.length - 1) / chunkSize) chunkSize
      = (List.range' 0 ((text.length - 1) / chunkSize) chunkSize).map (chunkSize + ·) := by
    rw [List.map_add_range', Nat.add_zero]
  rw [hshift, List.map_map]
  by_cases hd : text.drop chunkSize = []
  · have hle : text.length ≤ chunkSize := by
      have := congrArg List.length hd
      simp only [List.length_drop, List.length_nil] at this
      omega
    have hk : (text.length - 1) / chunkSize = 0 := Nat.div_eq_of_lt (by omega)
    rw [hk, hd, chunkList_nil]
    simp
  · have hlt : chunkSize < text.length := by
      by_contra hcon
      exact hd (List.eq_nil_of_length_eq_zero
        (by simp only [List.length_drop]; omega))
    rw [chunkList, if_neg hd]
    have hk : (text.length - 1) / chunkSize
        = ((text.drop chunkSize).length + chunkSize - 1) / chunkSize := by
      simp only [List.length_drop]
      congr 1
      omega
    rw [← hk]
    apply List.map_congr_left
    intro j _
    simp only [Function.comp_apply, List.drop_drop]

theorem chunkList_eq_single {text : List Char} {chunkSize : Nat}
    (hne : text ≠ []) (hs : 0 < chunkSize) (hlen : text.length ≤ chunkSize) :
    chunkList text chunkSize = [text] := by
  rw [chunkList_eq_cons hne hs]
  have hdrop : text.drop chunkSize = [] := by
    apply List.eq_nil_of_length_eq_zero
    simp only [List.length_drop]
    omega
  rw [hdrop, chunkList_nil, List.take_of_length_le hlen]

theorem chunkList_cons {text : List Char} {chunkSize : Nat}
    (hs : 0 < chunkSize) (hlen : chunkSize < text.length) :
    chunkList text chunkSize =
      text.take chunkSize :: chunkList (text.drop chunkSize) chunkSize := by
  have hne : text ≠ [] := by
    intro h; rw [h] at hlen; simp at hlen
  exact chunkList_eq_cons hne hs

theorem chunkList_flatten_aux (chunkSize : Nat) (hs : 0 < chunkSize) :
    ∀ (n : Nat) (text : List Char), text.length ≤ n →
      (chunkList text chunkSize).flatten = text := by
  intro n
  induction n with
  | zero =>
    intro text h
    have : text = [] := List.eq_nil_of_length_eq_zero (Nat.le_zero.mp h)
    rw [this, chunkList_nil]; rfl
  | succ n ih =>
    intro text h
    by_cases hne : text = []
    · rw [hne, chunkList_nil]; rfl
    · by_cases hlen : text.length ≤ chunkSize
      · rw [chunkList_eq_single hne hs hlen]
        simp
      · rw [chunkList_cons hs (Nat.lt_of_not_le hlen)]
        simp only [List.flatten_cons]
        rw [ih (text.drop chunkSize) (by simp only [List.length_drop]; omega)]
        exact List.take_append_drop _ _

theorem chunkList_flatten (text : List Char) (chunkSize : Nat) (hs : 0 < chunkSize) :
    (chunkList text chunkSize).flatten = text :=
  chunkList_flatten_aux chunkSize hs text.length text le_rfl

theorem chunkList_ne_nil {text : List Char} {chunkSize : Nat}
    (hne : text ≠ []) (hs : 0 < chunkSize) : chunkList text chunkSize ≠ [] := by
  intro h
  have := chunkList_flatten text chunkSize hs
  rw [h] at this
  exact hne this.symm

theorem getLastD_cons_of_ne_nil {α : Type} (a d : α) {l : List α} (h : l ≠ []) :
    (a :: l).getLastD d = l.getLastD d := by
  cases l with
  | nil => exact absurd rfl h
  | cons b t => simp [List.getLastD_cons]

theorem chunkList_dropLast_aux (chunkSize : Nat) (hs : 0 < chunkSize) :
    ∀ (n : Nat) (text : List Char), text.length ≤ n →
      ∀ c ∈ (chunkList text chunkSize).dropLast, c.length = chunkSize := by
  intro n
  induction n with
  | zero =>
    intro text h c hc
    have : text = [] := List.eq_nil_of_length_eq_zero (Nat.le_zero.mp h)
    rw [this, chunkList_nil] at hc
    simp at hc
  | succ n ih =>
    intro text h c hc
    by_cases hne : text = []
    · rw [hne, chunkList_nil] at hc; simp at hc
    · by_cases hlen : text.length ≤ chunkSize
      · rw [chunkList_eq_single hne hs hlen] at hc
        simp at hc
      · have hlt : chunkSize < text.length := Nat.lt_of_not_le hlen
        rw [chunkList_cons hs hlt] at hc
        have hdne : text.drop chunkSize ≠ [] := by
          intro hd
          have := congrArg List.length hd
          simp only [List.length_drop, List.length_nil] at this
          omega
        have hrne : chunkList (text.drop chunkSize) chunkSize ≠ [] :=
          chunkList_ne_nil hdne hs
        rw [List.dropLast_cons_of_ne_nil hrne] at hc
        rcases List.mem_cons.mp hc with h1 | h2
        · rw [h1, List.length_take]
          omega
        · exact ih (text.drop chunkSize)
            (by simp only [List.length_drop]; omega) c h2

theorem chunkList_getLastD_aux (chunkSize : Nat) (hs : 0 < chunkSize) :
    ∀ (n : Nat) (text : List Char), text.length ≤ n → text ≠ [] →
      1 ≤ ((chunkList text chunkSize).getLastD []).length ∧
      ((chunkList text chunkSize).getLastD []).length ≤ chunkSize := by
  intro n
  induction n with
  | zero =>
    intro text h hne
    exact absurd (List.eq_nil_of_length_eq_zero (Nat.le_zero.mp h)) hne
  | succ n ih =>
    intro text h hne
    by_cases hlen : text.length ≤ chunkSize
    · rw [chunkList_eq_single hne hs hlen]
      have : 0 < text.length := List.length_pos.mpr hne
      constructor
      · simpa [List.getLastD] using this
      · simpa [List.getLastD] using hlen
    · have hlt : chunkSize < text.length := Nat.lt_of_not_le hlen
      rw [chunkList_cons hs hlt]
      have hdne : text.drop chunkSize ≠ [] := by
        intro hd
        have := congrArg List.length hd
        simp only [List.length_drop, List.length_nil] at this
        omega
      have hrne : chunkList (text.drop chunkSize) chunkSize ≠ [] :=
        chunkList_ne_nil hdne hs
      rw [getLastD_cons_of_ne_nil _ _ hrne]
      exact ih (text.drop chunkSize)
        (by simp only [List.length_drop]; omega) hdne

/-- Claim C4 — chunker correctness: for every non-empty text and chunk size
`> 0`, the chunks concatenate back to the input, every chunk except possibly
the last has length exactly `chunkSize`, the last chunk's length is between 1
and `chunkSize`, and chunking the empty string yields the empty sequence. -/
theorem chunker_correct :
    (∀ (text : List Char) (chunkSize : Nat), text ≠ [] → 0 < chunkSize →
      (chunkList text chunkSize).flatten = text ∧
      (∀ c ∈ (chunkList text chunkSize).dropLast, c.length = chunkSize) ∧
      chunkList text chunkSize ≠ [] ∧
      1 ≤ ((chunkList text chunkSize).getLastD []).length ∧
      ((chunkList text chunkSize).getLastD []).length ≤ chunkSize) ∧
    (∀ chunkSize : Nat, chunkList [] chunkSize = []) := by
  constructor
  · intro text chunkSize hne hs
    refine ⟨chunkList_flatten text chunkSize hs,
      chunkList_dropLast_aux chunkSize hs text.length text le_rfl,
      chunkList_ne_nil hne hs, ?_⟩
    exact chunkList_getLastD_aux chunkSize hs text.length text le_rfl hne
  · exact chunkList_nil

/-- Witness for C4: chunking a concrete 5-character text with size 2 gives
chunks of lengths 2, 2, 1 that concatenate to the input. -/
theorem chunker_correct_witness :
    (chunkList ['a', 'b', 'c', 'd', 'e'] 2).flatten = ['a', 'b', 'c', 'd', 'e'] ∧
    (∀ c ∈ (chunkList ['a', 'b', 'c', 'd', 'e'] 2).dropLast, c.length = 2) ∧
    chunkList ['a', 'b', 'c', 'd', 'e'] 2 ≠ [] ∧
    1 ≤ ((chunkList ['a', 'b', 'c', 'd', 'e'] 2).getLastD []).length ∧
    ((chunkList ['a', 'b', 'c', 'd', 'e'] 2).getLastD []).length ≤ 2 :=
  chunker_correct.1 ['a', 'b', 'c', 'd', 'e'] 2 (by decide) (by decide)

/-! ## Vector index claims C1 and C7 -/

/-- Claim C1 — refuted by the code: `add_texts` restarts its ids at `doc_0`
on every call, so a second call reuses the id of the first and overwrites its
record.  Two single-chunk calls leave only the second record in the index. -/
theorem add_texts_id_reuse_overwrites :
    addTexts (addTexts [] ["A"] [⟨"A", "t1"⟩] 8) ["B"] [⟨"B", "t2"⟩] 8
      = [("doc_0", ⟨"B", "t2"⟩)] := by
  decide

/-- Claim C7 — for every query text, `top_k` and filter, if the retrieval
backend raises, `VectorStore.query` returns the empty sequence instead of
propagating the exception. -/
theorem query_backend_error_returns_empty
    (backend : String → Nat → ChromaFilter → Except Unit (List (IndexRecord × Rat)))
    (queryText : String) (topK : Nat) (filter : Option ChromaFilter) (e : Unit)
    (h : backend queryText topK (filter.getD []) = Except.error e) :
    vectorStoreQuery backend queryText topK filter = [] := by
  unfold vectorStoreQuery
  rw [h]

/-- Witness for C7: a backend that always raises makes `query` return `[]`. -/
theorem query_backend_error_returns_empty_witness :
    (fun (_ : String) (_ : Nat) (_ : ChromaFilter) =>
        (Except.error () : Except Unit (List (IndexRecord × Rat)))) "q" 5
        ((none : Option ChromaFilter).getD []) = Except.error () ∧
    vectorStoreQuery (fun _ _ _ => Except.error ()) "q" 5 none = [] :=
  ⟨rfl, query_backend_error_returns_empty _ "q" 5 none () rfl⟩

/-! ## Query cache claim C9 -/

theorem cacheGet_step (c : CacheState) (key : String) (now : Nat) :
    ((cacheGet c key now).2.hits + (cacheGet c key now).2.misses
      = c.hits + c.misses + 1) ∧
    (cacheGet c key now).2.redis = c.redis := by
  rcases h : redisGet c.redis key now with _ | v
  · simp only [cacheGet, h]
    exact ⟨by omega, trivial⟩
  · by_cases hv : v = ""
    · simp only [cacheGet, h, if_pos hv]
      exact ⟨by omega, trivial⟩
    · simp only [cacheGet, h, if_neg hv]
      exact ⟨by omega, trivial⟩

theorem runGets_counters (lookups : List (String × Nat)) :
    ∀ c : CacheState, (runGets c lookups).hits + (runGets c lookups).misses
      = c.hits + c.misses + lookups.length := by
  induction lookups with
  | nil => intro c; simp [runGets]
  | cons q rest ih =>
    intro c
    simp only [runGets, List.foldl_cons] at *
    rw [ih ((cacheGet c q.1 q.2).2), (cacheGet_step c q.1 q.2).1,
      List.length_cons]
    omega

/-- Claim C9 — `hit_ratio` is hits over total lookups, `0` before any lookup,
and `1/2` after exactly one miss and one hit. -/
theorem hit_ratio_correct :
    (∀ (entries : List RedisEntry) (lookups : List (String × Nat)),
      (runGets (initialCache entries) lookups).hits
        + (runGets (initialCache entries) lookups).misses = lookups.length ∧
      hitRatio (runGets (initialCache entries) lookups)
        = if lookups.length = 0 then 0
          else ((runGets (initialCache entries) lookups).hits : Rat)
            / (lookups.length : Rat)) ∧
    hitRatio (runGets (initialCache [⟨"k", "v", 1⟩]) [("a", 0), ("k", 0)]) = 1 / 2 := by
  constructor
  · intro entries lookups
    have htot : (runGets (initialCache entries) lookups).hits
        + (runGets (initialCache entries) lookups).misses = lookups.length := by
      rw [runGets_counters lookups (initialCache entries)]
      simp [initialCache]
    refine ⟨htot, ?_⟩
    unfold hitRatio
    rw [htot]
    by_cases hl : lookups.length = 0
    · simp [hl]
    · rw [if_neg hl, if_pos (Nat.pos_of_ne_zero hl)]
  · have h1 : runGets (initialCache [⟨"k", "v", 1⟩]) [("a", 0), ("k", 0)]
        = ⟨[⟨"k", "v", 1⟩], 1, 1⟩ := by decide
    rw [h1]
    norm_num [hitRatio]

/-! ## Query orchestrator claims C2, C5, C6, C10 -/

/-- Claim C2 — refuted by the code: the endpoint's key carries a `query:`
prefix and joins the topics unsorted, so it differs from the specified
`question + ":" + sorted_join(topics, ",")`, and the same topics in a
different order produce a different key. -/
theorem cache_key_differs_from_spec :
    cacheKey "q" ["b", "a"] ≠ specCacheKey "q" ["b", "a"] ∧
    cacheKey "q" ["b", "a"] ≠ cacheKey "q" ["a", "b"] := by
  decide

/-- Claim C2 amended — the key the endpoint actually computes is
`"query:" + question + ":" + ",".join(topics)` with the topics in the order
given, not sorted. -/
theorem cache_key_formula (question : String) (topics : List String) :
    cacheKey question topics
      = "query:" ++ question ++ ":" ++ String.intercalate "," topics := rfl

/-- Claim C5 amended — if the cache holds a non-expired entry with a
non-empty value under the computed key, the endpoint answers with exactly
that value, only bumps the hit counter, and the outcome is the same whatever
the retrieval-plus-generation chain would have produced (no retrieval or
generation is performed). -/
theorem cache_hit_returns_cached (gen : Except Unit String) (c : CacheState)
    (question : String) (topics : List String) (now : Nat) (v : String)
    (hv : redisGet c.redis (cacheKey question topics) now = some v)
    (hne : v ≠ "") :
    queryEndpoint gen c question topics now
      = (QueryOutcome.answer v, { c with hits := c.hits + 1 }) := by
  simp [queryEndpoint, cacheGet, hv, hne]

/-- Witness for the amended C5, with a `gen` that would raise: the cached
answer is still returned and only the hit counter changes. -/
theorem cache_hit_returns_cached_witness :
    redisGet ([⟨cacheKey "q" [], "hit", 9⟩] : List RedisEntry) (cacheKey "q" []) 0
      = some "hit" ∧
    ("hit" : String) ≠ "" ∧
    queryEndpoint (Except.error ()) ⟨[⟨cacheKey "q" [], "hit", 9⟩], 2, 3⟩ "q" [] 0
      = (QueryOutcome.answer "hit", ⟨[⟨cacheKey "q" [], "hit", 9⟩], 3, 3⟩) :=
  ⟨by decide, by decide,
    cache_hit_returns_cached (Except.error ()) ⟨[⟨cacheKey "q" [], "hit", 9⟩], 2, 3⟩
      "q" [] 0 "hit" (by decide) (by decide)⟩

/-- Claim C5 counterexample — the cache holds a non-expired entry (value
`""`) for the computed key, yet the endpoint does not return the cached
answer: it re-runs retrieval and generation and returns the fresh answer. -/
theorem cached_empty_entry_not_returned :
    redisGet ([⟨cacheKey "q" [], "", 100⟩] : List RedisEntry) (cacheKey "q" []) 0
      = some "" ∧
    (queryEndpoint (Except.ok "fresh") ⟨[⟨cacheKey "q" [], "", 100⟩], 0, 0⟩ "q" [] 0).1
      = QueryOutcome.answer "fresh" ∧
    QueryOutcome.answer "fresh" ≠ QueryOutcome.answer "" := by
  decide

/-- Claim C6 — on a cache miss, a raised exception during retrieval or
generation is surfaced as the single HTTP 500 outcome, and no cache entry is
written: the Redis entries are exactly those before the call (only the miss
counter moved). -/
theorem query_failure_surfaces_500_no_write (c : CacheState) (question : String)
    (topics : List String) (now : Nat) (e : Unit)
    (hmiss : redisGet c.redis (cacheKey question topics) now = none ∨
      redisGet c.redis (cacheKey question topics) now = some "") :
    queryEndpoint (Except.error e) c question topics now
      = (QueryOutcome.error500, { c with misses := c.misses + 1 }) ∧
    (queryEndpoint (Except.error e) c question topics now).2.redis = c.redis := by
  rcases hmiss with h | h
  · constructor <;> simp [queryEndpoint, cacheGet, h]
  · constructor <;> simp [queryEndpoint, cacheGet, h]

/-- Witness for C6: an empty cache, failing generation — HTTP 500, Redis
entries untouched. -/
theorem query_failure_surfaces_500_no_write_witness :
    (redisGet ([] : List RedisEntry) (cacheKey "q" ["t"]) 0 = none ∨
      redisGet ([] : List RedisEntry) (cacheKey "q" ["t"]) 0 = some "") ∧
    (queryEndpoint (Except.error ()) ⟨[], 3, 4⟩ "q" ["t"] 0
        = (QueryOutcome.error500, ⟨[], 3, 5⟩) ∧
      (queryEndpoint (Except.error ()) ⟨[], 3, 4⟩ "q" ["t"] 0).2.redis = []) :=
  ⟨Or.inl rfl,
    query_failure_surfaces_500_no_write ⟨[], 3, 4⟩ "q" ["t"] 0 () (Or.inl rfl)⟩

/-- Claim C10 — a stored non-expired empty-string value is a miss:
`Cache.get` returns `none` and bumps the miss counter, and the endpoint
consequently re-runs retrieval and generation, returning and caching the
fresh answer. -/
theorem empty_cached_value_is_miss (c : CacheState) (key : String) (now : Nat)
    (h : redisGet c.redis key now = some "") :
    cacheGet c key now = (none, { c with misses := c.misses + 1 }) ∧
    ∀ (question : String) (topics : List String) (a : String),
      key = cacheKey question topics →
      queryEndpoint (Except.ok a) c question topics now
        = (QueryOutcome.answer a,
            cacheSet { c with misses := c.misses + 1 } key a now) := by
  constructor
  · simp [cacheGet, h]
  · intro question topics a hk
    subst hk
    simp [queryEndpoint, cacheGet, h]

/-- Witness for C10: a concrete cache holding `""` under the computed key. -/
theorem empty_cached_value_is_miss_witness :
    redisGet ([⟨cacheKey "q" ["t"], "", 5⟩] : List RedisEntry) (cacheKey "q" ["t"]) 0
      = some "" ∧
    cacheGet ⟨[⟨cacheKey "q" ["t"], "", 5⟩], 0, 0⟩ (cacheKey "q" ["t"]) 0
      = (none, ⟨[⟨cacheKey "q" ["t"], "", 5⟩], 0, 1⟩) ∧
    queryEndpoint (Except.ok "ans") ⟨[⟨cacheKey "q" ["t"], "", 5⟩], 0, 0⟩ "q" ["t"] 0
      = (QueryOutcome.answer "ans",
          cacheSet ⟨[⟨cacheKey "q" ["t"], "", 5⟩], 0, 1⟩ (cacheKey "q" ["t"]) "ans" 0) :=
  ⟨by decide,
    (empty_cached_value_is_miss ⟨[⟨cacheKey "q" ["t"], "", 5⟩], 0, 0⟩
      (cacheKey "q" ["t"]) 0 (by decide)).1,
    (empty_cached_value_is_miss ⟨[⟨cacheKey "q" ["t"], "", 5⟩], 0, 0⟩
      (cacheKey "q" ["t"]) 0 (by decide)).2 "q" ["t"] "ans" rfl⟩

/-! ## Ingestion pipeline claims C3 and C8 -/

theorem basename_append (p : List String) (f : String) : basename (p ++ [f]) = f := by
  simp [basename, List.getLastD_concat]

theorem processSingleFile_fst (fsys : FileSystem) (st : VSState) (fp : List String)
    (topic : String) :
    (processSingleFile fsys st fp topic).1 = singleFileCount fsys fp := by
  by_cases h1 : isSupported (basename fp) = true <;>
    by_cases h2 : fsys.extract fp = "" <;>
      by_cases h3 : fsys.writeFails fp = true <;>
        simp [processSingleFile, singleFileCount, h1, h2, h3]

theorem singleFileCount_writeFails (fsys : FileSystem) (fp : List String)
    (h : fsys.writeFails fp = true) : singleFileCount fsys fp = 0 := by
  by_cases h1 : isSupported (basename fp) = true <;>
    by_cases h2 : fsys.extract fp = "" <;>
      simp [singleFileCount, h1, h2, h]

theorem processFiles_log (fsys : FileSystem) (root : List String) (topic : String) :
    ∀ (files : List String) (s : ProcState),
      (files.foldl (fun s f =>
        if isSupported f then
          let r := processSingleFile fsys s.store (root ++ [f]) topic
          { s with store := r.2, log := s.log ++ [⟨root ++ [f], topic, r.1⟩] }
        else s) s).log
      = s.log ++ (files.filter isSupported).map
          (fun f => ⟨root ++ [f], topic, singleFileCount fsys (root ++ [f])⟩) := by
  intro files
  induction files with
  | nil => intro s; simp
  | cons f fs ih =>
    intro s
    simp only [List.foldl_cons, List.filter_cons]
    by_cases hf : isSupported f = true
    · rw [if_pos hf, if_pos hf, ih]
      simp [processSingleFile_fst, List.append_assoc]
    · rw [if_neg hf, if_neg hf, ih]

theorem processEntry_log (fsys : FileSystem) (rootBase : String) (st : ProcState)
    (e : WalkEntry) :
    (processEntry fsys rootBase st e).log = st.log ++ entryLog fsys e := by
  unfold processEntry entryLog
  rw [processFiles_log]
  by_cases ht : basename e.root ≠ rootBase
  · rw [if_pos ht]
  · rw [if_neg ht]

theorem foldl_entries_log (fsys : FileSystem) (rb : String) :
    ∀ (entries : List WalkEntry) (st : ProcState),
      (entries.foldl (processEntry fsys rb) st).log
        = st.log ++ (entries.map (entryLog fsys)).flatten := by
  intro entries
  induction entries with
  | nil => intro st; simp
  | cons e es ih =>
    intro st
    simp only [List.foldl_cons, List.map_cons, List.flatten_cons]
    rw [ih, processEntry_log, List.append_assoc]

theorem processDirectory_log (fsys : FileSystem) (dirPath : List String)
    (entries : List WalkEntry) :
    (processDirectory fsys dirPath entries).log
      = (entries.map (entryLog fsys)).flatten := by
  unfold processDirectory
  rw [foldl_entries_log]
  rfl

/-- Claim C3 — refuted by the code: a file directly at the corpus root is
paired with topic `basename(root)` (here `"corpus"`), not with the empty
string; the root check only keeps the name out of the topic catalog. -/
theorem topic_at_root_not_empty :
    (processDirectory ⟨fun _ => "hello", fun _ => false⟩ ["corpus"]
        [⟨["corpus"], ["doc.pdf"]⟩]).log
      = [⟨["corpus", "doc.pdf"], "corpus", 1⟩] ∧
    ("corpus" : String) ≠ "" := by
  decide

/-- Claim C3 amended — every processed file's chunks are paired with the base
name of the file's immediate containing directory, with no exception for
files directly at the corpus root (they get the root directory's base name,
never `""` for a named root). -/
theorem topic_is_containing_dirname (fsys : FileSystem) (dirPath : List String)
    (entries : List WalkEntry) :
    ∀ l ∈ (processDirectory fsys dirPath entries).log,
      l.topic = basename l.file.dropLast := by
  intro l hl
  rw [processDirectory_log, List.mem_flatten] at hl
  obtain ⟨L, hL, hlL⟩ := hl
  rw [List.mem_map] at hL
  obtain ⟨e, _, rfl⟩ := hL
  unfold entryLog at hlL
  rw [List.mem_map] at hlL
  obtain ⟨f, _, rfl⟩ := hlL
  simp [List.dropLast_concat]

/-- Witness for the amended C3: the concrete root-level file is in the log
and its topic equals the base name of its containing directory. -/
theorem topic_is_containing_dirname_witness :
    (⟨["corpus", "doc.pdf"], "corpus", 1⟩ : LogEntry)
        ∈ (processDirectory ⟨fun _ => "hello", fun _ => false⟩ ["corpus"]
            [⟨["corpus"], ["doc.pdf"]⟩]).log ∧
    (⟨["corpus", "doc.pdf"], "corpus", 1⟩ : LogEntry).topic
      = basename (⟨["corpus", "doc.pdf"], "corpus", 1⟩ : LogEntry).file.dropLast :=
  ⟨by decide,
    topic_is_containing_dirname ⟨fun _ => "hello", fun _ => false⟩ ["corpus"]
      [⟨["corpus"], ["doc.pdf"]⟩] ⟨["corpus", "doc.pdf"], "corpus", 1⟩ (by decide)⟩

/-- Claim C8 — the walk never aborts: whatever the extraction results and
whichever files' index writes raise, the log records exactly one entry per
supported file of every walk entry, in walk order; and a file whose write
raised is recorded with zero chunks. -/
theorem walk_never_aborts (fsys : FileSystem) (dirPath : List String)
    (entries : List WalkEntry) :
    ((processDirectory fsys dirPath entries).log).map LogEntry.file
      = (entries.map
          (fun e => (e.files.filter isSupported).map (fun f => e.root ++ [f]))).flatten ∧
    ∀ l ∈ (processDirectory fsys dirPath entries).log,
      fsys.writeFails l.file = true → l.chunks = 0 := by
  constructor
  · rw [processDirectory_log, List.map_flatten, List.map_map]
    congr 1
    apply List.map_congr_left
    intro e _
    simp [entryLog, Function.comp, List.map_map]
  · intro l hl hw
    rw [processDirectory_log, List.mem_flatten] at hl
    obtain ⟨L, hL, hlL⟩ := hl
    rw [List.mem_map] at hL
    obtain ⟨e, _, rfl⟩ := hL
    unfold entryLog at hlL
    rw [List.mem_map] at hlL
    obtain ⟨f, _, rfl⟩ := hlL
    exact singleFileCount_writeFails fsys (e.root ++ [f]) hw

/-- Witness for C8: with two files in one directory where the first file's
write raises, both files are still logged and the failing one has zero
chunks. -/
theorem walk_never_aborts_witness :
    ((processDirectory ⟨fun _ => "hi", fun p => p == ["c", "a.pdf"]⟩ ["c"]
        [⟨["c"], ["a.pdf", "b.pdf"]⟩]).log).map LogEntry.file
      = ([⟨["c"], ["a.pdf", "b.pdf"]⟩].map
          (fun (e : WalkEntry) =>
            (e.files.filter isSupported).map (fun f => e.root ++ [f]))).flatten ∧
    (⟨["c", "a.pdf"], "c", 0⟩ : LogEntry)
        ∈ (processDirectory ⟨fun _ => "hi", fun p => p == ["c", "a.pdf"]⟩ ["c"]
            [⟨["c"], ["a.pdf", "b.pdf"]⟩]).log ∧
    (⟨["c", "a.pdf"], "c", 0⟩ : LogEntry).chunks = 0 :=
  ⟨(walk_never_aborts ⟨fun _ => "hi", fun p => p == ["c", "a.pdf"]⟩ ["c"]
      [⟨["c"], ["a.pdf", "b.pdf"]⟩]).1,
    by decide,
    (walk_never_aborts ⟨fun _ => "hi", fun p => p == ["c", "a.pdf"]⟩ ["c"]
      [⟨["c"], ["a.pdf", "b.pdf"]⟩]).2 ⟨["c", "a.pdf"], "c", 0⟩ (by decide) (by decide)⟩

end DocAnalysis
